import Mathlib

/-!
Shallow embedding of `process_all.py`: a pipeline that merges CSV files found
in company folders, deduplicates rows on the `Title` column while counting
occurrences, sorts descending by count, and writes one compiled CSV per
filename pattern into an output folder under the working directory.

Modelling conventions:
* a CSV field value is an atomic `String` (the `csv` module quotes and
  round-trips arbitrary field strings, so file records are modelled as
  `List String` and whole files as a header plus records);
* a `csv.DictReader` record is an association list from column name to value
  (dict keys are unique, lookup finds the unique binding);
* Python's stable `sorted` is modelled by an insertion sort (`sortBy`); on a
  total preorder this computes exactly the stable sorted permutation, which is
  what `sorted` returns;
* `print(...)` lines are collected in an `out` list, `sys.stderr` writes in an
  `err` list, and `sys.exit(n)` is an `exitCode := some n` outcome.
-/

namespace ProcessAll

/-- `HEADER_LIST`: the fixed output column list of the script (lines 75-82). -/
def HEADER_LIST : List String :=
  ["Difficulty", "Title", "Frequency", "Acceptance Rate", "Link", "Topics"]

/-- A parsed CSV record as produced by `csv.DictReader`: a finite map from
column name to field value, modelled as an association list. -/
abbrev Row := List (String × String)

/-- `row.get(col, "")`: look a column up in a record, defaulting to the empty
string when the record has no such column. -/
def rget (r : Row) (c : String) : String := (List.lookup c r).getD ""

/-- `row["Title"]`: a `DictReader` record always carries every field name of
its file as a key, so in `merge_duplicates` (which first checks that `Title`
is among the fields) the lookup cannot fail; it is modelled with an
empty-string default, and the theorems hypothesise the key's presence. -/
def titleOf (r : Row) : String := rget r "Title"

/-- The record `merge_csv_files` writes for one source record (line 140):
`[row.get(col, "") for col in HEADER_LIST]`. -/
def projectRow (r : Row) : List String := HEADER_LIST.map (fun c => rget r c)

/-- `csv.DictReader` applied to one record of a CSV whose header row is `h`:
pair each header column with the field in the same position.  (A record longer
than the header has its extra fields dropped; for a shorter record the missing
columns are absent here, while in Python the key maps to `None`, which every
downstream write renders as the empty field.) -/
def readRow (h : List String) (rec : List String) : Row := h.zip rec

/-- `{col: row.get(col, "") for col in fields}` (line 165): the first-seen
record's values over the input field list. -/
def projR (fields : List String) (r : Row) : Row :=
  fields.map (fun c => (c, rget r c))

/-- Stable insertion of `a` into `l`: `a` stays behind every earlier element
it does not strictly precede, so equal keys keep their original order. -/
def insertLe (le : α → α → Bool) (a : α) : List α → List α
  | [] => [a]
  | b :: bs => if le a b then a :: b :: bs else b :: insertLe le a bs

/-- Stable insertion sort, the model of Python's stable `sorted` and of a
stable descending reorder: on a total preorder `le` (ties answering `true`)
it produces the unique stable sorted permutation. -/
def sortBy (le : α → α → Bool) : List α → List α
  | [] => []
  | a :: as => insertLe le a (sortBy le as)

/-! ### The deduplication stage (`merge_duplicates`, lines 148-176) -/

/-- One aggregate entry of `title_map`: the first-seen record's values over
the input field list, plus the running occurrence count. -/
structure Entry where
  vals : Row
  count : Nat
deriving DecidableEq

/-- `title_map[t]["count"] += 1`: increment the count stored under key `t`
(keys are unique, so at most one binding is touched). -/
def bump (t : String) : List (String × Entry) → List (String × Entry)
  | [] => []
  | (k, e) :: m =>
      if k == t then (k, ⟨e.vals, e.count + 1⟩) :: m else (k, e) :: bump t m

/-- One iteration of the row loop of `merge_duplicates` (lines 159-167). -/
def dedupStep (fields : List String) (m : List (String × Entry)) (r : Row) :
    List (String × Entry) :=
  let t := titleOf r
  if (List.lookup t m).isSome then bump t m
  else m ++ [(t, ⟨projR fields r, 1⟩)]

/-- `title_map` after the row loop; a Python dict preserves insertion order,
so it is modelled as an insertion-ordered association list. -/
def titleMap (fields : List String) (rows : List Row) : List (String × Entry) :=
  rows.foldl (dedupStep fields) []

/-- `csv.DictWriter` serialization of one aggregate entry over
`out_fields = fields + ["count"]` (lines 171-175). -/
def entryRecord (fields : List String) (e : Entry) : List String :=
  fields.map (fun c => rget e.vals c) ++ [toString e.count]

/-- Outcome of running a stage or a pattern pass: the process either continues
(`exitCode = none`) or terminated via `sys.exit`; `out` and `err` collect the
lines written to standard output and standard error; `output` is the content
(header row, data records) of the file the stage produced, or `none` when it
aborted before writing one. -/
structure RunOutcome where
  exitCode : Option Nat
  out : List String
  err : List String
  output : Option (List String × List (List String))
deriving DecidableEq

/-- `merge_duplicates(input_csv, output_csv)` (lines 148-176).  `header?` is
`reader.fieldnames` (`none` for a completely empty input file), `rows` the
parsed data records.  `fields = reader.fieldnames or HEADER_LIST`; if `Title`
is not among the fields the script prints a diagnostic — via `print`, i.e. to
standard output — and calls `sys.exit(1)` before the output file is opened;
otherwise it writes the deduplicated CSV.  (The quote characters of the
Python diagnostic text are elided.) -/
def merge_duplicates (inputCsv outputCsv : String) (header? : Option (List String))
    (rows : List Row) : RunOutcome :=
  let fields := header?.getD HEADER_LIST
  if "Title" ∈ fields then
    let m := titleMap fields rows
    { exitCode := none
    , out := ["  → Processed " ++ toString rows.length ++ " rows; " ++
                toString m.length ++ " unique titles."
             , "  → Wrote deduplicated CSV to " ++ outputCsv ++ "."]
    , err := []
    , output := some (fields ++ ["count"], m.map (fun p => entryRecord fields p.2)) }
  else
    { exitCode := some 1
    , out := ["  [ERROR] Title column missing in " ++ inputCsv]
    , err := []
    , output := none }

/-! ### File discovery and the merge stage (`merge_csv_files`, lines 109-146) -/

/-- A source file in the scanned tree: directory components from the working
directory down, the filename, the records `csv.DictReader` yields from it
(those successfully read before any I/O error), and whether reading it raised
an exception partway.  A failing file only adds an error log line; the records
read before the failure stay written, and processing continues. -/
structure SrcFile where
  dirs : List String
  name : String
  rows : List Row
  err : Bool
deriving DecidableEq

/-- The path of a file as a string, as Python builds and sorts it. -/
def pathStr (f : SrcFile) : String :=
  String.intercalate "/" (f.dirs ++ [f.name])

/-- Code-point lexicographic comparison of character lists: exactly how Python
compares path strings. -/
def charListLe : List Char → List Char → Bool
  | [], _ => true
  | _ :: _, [] => false
  | a :: as, b :: bs => if a = b then charListLe as bs else decide (a < b)

/-- Python string `<=` (code-point lexicographic). -/
def strLe (a b : String) : Bool := charListLe a.toList b.toList

/-- Path comparison used by `sorted(files)`. -/
def pathLe (a b : SrcFile) : Bool := strLe (pathStr a) (pathStr b)

/-- `glob.glob(os.path.join("**", pattern), recursive=True)` (line 121): every
file named exactly `pattern` anywhere under the working directory (the five
patterns contain no wildcard characters).  Dot-hidden entries, which glob
skips, are not modelled; the trees considered contain none. -/
def globAll (fs : List SrcFile) (pattern : String) : List SrcFile :=
  fs.filter (fun f => f.name == pattern)

/-- `glob.glob(os.path.join(d, "**", pattern), recursive=True)` (line 119):
files named `pattern` in the subtree rooted at the top-level folder named `d`
(`**` also matches zero directories). -/
def globUnder (fs : List SrcFile) (d : String) (pattern : String) : List SrcFile :=
  fs.filter (fun f => f.dirs.head? == some d && f.name == pattern)

/-- File collection of `merge_csv_files` (lines 116-122): if `allowed_dirs` is
truthy — present and nonempty; the Python guard `if allowed_dirs:` treats an
empty set like `None` — glob each allowed folder's subtree and concatenate,
else glob the whole tree; then sort the collected paths.  The allow-set is a
Python set; it is modelled as a list, the final global sort making the
collection order irrelevant. -/
def discover (fs : List SrcFile) (pattern : String)
    (allowed : Option (List String)) : List SrcFile :=
  let files := match allowed with
    | some (d :: ds) => (d :: ds).flatMap (fun d => globUnder fs d pattern)
    | _ => globAll fs pattern
  sortBy pathLe files

/-- The data records `merge_csv_files` writes after the `HEADER_LIST` header
row (lines 126-141): each discovered file's records in sorted path order, each
projected onto `HEADER_LIST` by name. -/
def mergedRecords (fs : List SrcFile) (pattern : String)
    (allowed : Option (List String)) : List (List String) :=
  (discover fs pattern allowed).flatMap (fun f => f.rows.map projectRow)

/-- Per-file log lines of `merge_csv_files` (lines 142-144), all written via
`print`, i.e. to standard output (the exception text of a read error is
elided). -/
def mergeLogs (fs : List SrcFile) (pattern : String)
    (allowed : Option (List String)) : List String :=
  (discover fs pattern allowed).map (fun f =>
    if f.err then "  [ERROR] reading " ++ pathStr f
    else "  [OK] Appended " ++ f.name)

/-! ### The sort stage (`sort_by_count`, lines 178-182) -/

/-- The count column of a record under `header`: pandas parses the `count`
column of the dedup CSV as integers. -/
def countVal (header : List String) (rec : List String) : Nat :=
  ((rec.get? (List.indexOf "count" header)).bind String.toNat?).getD 0

/-- `df.sort_values("count", ascending=False, inplace=True)`: reorder the
records into non-increasing order of the count column.  pandas' default sort
kind is quicksort, which does NOT guarantee the relative order of tied rows;
the reorder is modelled as a stable descending sort, which agrees with the
library wherever the count values involved are pairwise distinct (the tie
behaviour itself is claim C2, settled from the library's documented
contract).  The pandas CSV round-trip re-serializes the file; on the dedup
CSVs produced here (string fields, integer counts, empty fields written back
as empty) it reproduces the records. -/
def sort_by_count (header : List String) (records : List (List String)) :
    List (List String) :=
  sortBy (fun a b => decide (countVal header b ≤ countVal header a)) records

/-! ### One pattern pass of `process_all` (lines 184-226) -/

/-- One pattern pass (lines 213-226): `merge_csv_files` into the temp CSV,
`merge_duplicates` into the final CSV, `sort_by_count` in place, then copy to
the output folder.  The merged temp file always begins with the `HEADER_LIST`
header row (line 128), so the dedup stage always reads
`fieldnames = HEADER_LIST`. -/
def process_pattern (fs : List SrcFile) (pattern : String)
    (allowed : Option (List String)) : RunOutcome :=
  let recs := mergedRecords fs pattern allowed
  let dr := merge_duplicates "temp_output.csv" "final_output.csv"
      (some HEADER_LIST) (recs.map (readRow HEADER_LIST))
  { exitCode := dr.exitCode
  , out := mergeLogs fs pattern allowed ++ dr.out
  , err := dr.err
  , output := match dr.output with
      | some (h, rs) => some (h, sort_by_count h rs)
      | none => none }

/-- Output folder name (lines 204-207); the guard `if allowed:` again treats
an empty set like `None`. -/
def outFolder (allowed : Option (List String)) : String :=
  match allowed with
  | some (_ :: _) => "__custom_companies_compiled"
  | _ => "__all_companies_compiled"

/-- `os.path.splitext`: strip the extension after the last dot (the filenames
here have no leading dot, so Python's leading-dot special case cannot
arise). -/
def splitextBase (s : String) : String :=
  let cs := s.toList
  if cs.contains '.' then
    (cs.take (cs.length - 1 - List.indexOf '.' cs.reverse)).asString
  else s

/-- Destination filename of the compiled CSV (lines 222-223):
`splitext(pattern).base + ".csv"` — for the five `*.csv` patterns this equals
the pattern filename itself. -/
def outName (pattern : String) : String := splitextBase pattern ++ ".csv"

/-- The file `shutil.copy` places in the output folder, as a later scan's
`DictReader` sees it. -/
def outputFile (allowed : Option (List String)) (pattern : String)
    (content : List String × List (List String)) : SrcFile :=
  { dirs := [outFolder allowed]
  , name := outName pattern
  , rows := content.2.map (readRow content.1)
  , err := false }

/-- The scanned tree after one full run for one pattern: the compiled CSV now
sits inside the output folder under the working directory, where a later run's
recursive glob can see it. -/
def afterRun (fs : List SrcFile) (pattern : String)
    (allowed : Option (List String)) : List SrcFile :=
  match (process_pattern fs pattern allowed).output with
  | some content => fs ++ [outputFile allowed pattern content]
  | none => fs

/-- First-occurrence order of a list of strings: the order in which a Python
dict (or insertion-ordered set model) keyed by them acquires its keys. -/
def firstSeen (ts : List String) : List String :=
  ts.foldl (fun ks t => if t ∈ ks then ks else ks ++ [t]) []

/-- Python `str.split(",")`: split a character list at every comma; `""`
splits to `[""]` and `","` to `["", ""]`. -/
def splitComma : List Char → List (List Char)
  | [] => [[]]
  | c :: cs =>
      let r := splitComma cs
      if c = ',' then [] :: r
      else
        match r with
        | [] => [[c]]
        | w :: ws => (c :: w) :: ws

/-- Python `str.strip()`: drop leading and trailing whitespace. -/
def pyStrip (s : String) : String :=
  (((s.toList.dropWhile Char.isWhitespace).reverse.dropWhile
      Char.isWhitespace).reverse).asString

/-- `parse_companies_arg` for an inline (non-file) argument (lines 94-107):
strip the argument, split on commas, strip each part, drop empty parts;
Python collects the parts into a set, modelled as the parts in
first-occurrence order.  An absent `-c` argument is the empty string (Python
`None` and `""` are both falsy).  The branch loading names from an existing
file is not modelled. -/
def parse_companies_arg (arg : String) : Option (List String) :=
  if arg = "" then none
  else some (firstSeen ((((splitComma (pyStrip arg).toList).map
      (fun w => pyStrip w.asString))).filter (fun s => decide (s ≠ ""))))

/-- Concrete scanned tree for the idempotence analysis: one company folder
holding one pattern file with a single record titled `Two Sum`. -/
def exampleTree : List SrcFile :=
  [{ dirs := ["CompanyA"], name := "1. Thirty Days.csv"
   , rows := [[("Title", "Two Sum")]], err := false }]

/-- Concrete scanned tree for the filter-scoping analysis: one folder `Beta`
holding one pattern file with a single record titled `X`. -/
def betaTree : List SrcFile :=
  [{ dirs := ["Beta"], name := "5. All.csv"
   , rows := [[("Title", "X")]], err := false }]

/-! ### Association-list and sorting lemmas -/

/-- Membership is preserved by `insertLe`. -/
theorem mem_insertLe (le : α → α → Bool) (a x : α) (l : List α) :
    x ∈ insertLe le a l ↔ x = a ∨ x ∈ l := by
  induction l with
  | nil => simp [insertLe]
  | cons b bs ih =>
      by_cases h : le a b = true
      · simp [insertLe, h]
      · simp [insertLe, h, ih]
        tauto

/-- Membership is preserved by `sortBy`. -/
theorem mem_sortBy (le : α → α → Bool) (x : α) (l : List α) :
    x ∈ sortBy le l ↔ x ∈ l := by
  induction l with
  | nil => simp [sortBy]
  | cons a as ih => simp [sortBy, mem_insertLe, ih]

theorem lookup_zip_map (f : String → String) (c : String) (H : List String)
    (hc : c ∈ H) : List.lookup c (H.zip (H.map f)) = some (f c) := by
  induction H with
  | nil => cases hc
  | cons h t ih =>
      by_cases h' : c = h
      · subst h'; simp [List.lookup]
      · have hmem : c ∈ t := by
          cases hc with
          | head => exact absurd rfl h'
          | tail _ hm => exact hm
        have hbeq : (c == h) = false := by simp [h']
        simp only [List.zip, List.map, List.zipWith, List.lookup, hbeq]
        exact ih hmem

theorem lookup_zip_none (c : String) (H rec : List String) (hc : c ∉ H) :
    List.lookup c (H.zip rec) = none := by
  induction H generalizing rec with
  | nil => simp
  | cons h t ih =>
      cases rec with
      | nil => simp
      | cons v vs =>
          have h1 : ¬ c = h := fun h' => hc (h' ▸ List.mem_cons_self h t)
          have h2 : c ∉ t := fun h' => hc (List.mem_cons_of_mem _ h')
          have hbeq : (c == h) = false := by simp [h1]
          simp only [List.zip, List.zipWith, List.lookup, hbeq]
          exact ih vs h2

theorem lookup_map_pair (f : String → String) (c : String) (H : List String)
    (hc : c ∈ H) : List.lookup c (H.map (fun x => (x, f x))) = some (f c) := by
  induction H with
  | nil => cases hc
  | cons h t ih =>
      by_cases h' : c = h
      · subst h'; simp [List.lookup]
      · have hmem : c ∈ t := by
          cases hc with
          | head => exact absurd rfl h'
          | tail _ hm => exact hm
        have hbeq : (c == h) = false := by simp [h']
        simp only [List.map, List.lookup, hbeq]
        exact ih hmem

theorem rget_projR (fields : List String) (r : Row) (c : String)
    (hc : c ∈ fields) : rget (projR fields r) c = rget r c := by
  show (List.lookup c (fields.map (fun x => (x, rget r x)))).getD "" = rget r c
  rw [lookup_map_pair (fun x => rget r x) c fields hc]
  rfl

/-! ### Lemmas about `bump` and `title_map` -/

theorem lookup_bump_self (t : String) (m : List (String × Entry)) :
    List.lookup t (bump t m) =
      (List.lookup t m).map (fun e => ⟨e.vals, e.count + 1⟩) := by
  induction m with
  | nil => rfl
  | cons p m ih =>
      obtain ⟨k, e⟩ := p
      by_cases h : k = t
      · subst h
        simp [bump, List.lookup]
      · have h1 : (k == t) = false := by simp [h]
        have h2 : (t == k) = false := by simp [Ne.symm h]
        simp [bump, List.lookup, h1, h2, ih]

theorem lookup_bump_other (t s : String) (h : s ≠ t)
    (m : List (String × Entry)) :
    List.lookup s (bump t m) = List.lookup s m := by
  induction m with
  | nil => rfl
  | cons p m ih =>
      obtain ⟨k, e⟩ := p
      by_cases hk : k = t
      · subst hk
        have h2 : (s == k) = false := by simp [h]
        simp [bump, List.lookup, h2]
      · have h1 : (k == t) = false := by simp [hk]
        by_cases hs : s = k
        · subst hs; simp [bump, List.lookup, h1]
        · have h2 : (s == k) = false := by simp [hs]
          simp [bump, List.lookup, h1, h2, ih]

theorem keys_bump (t : String) (m : List (String × Entry)) :
    (bump t m).map Prod.fst = m.map Prod.fst := by
  induction m with
  | nil => rfl
  | cons p m ih =>
      obtain ⟨k, e⟩ := p
      by_cases h : (k == t) = true
      · simp [bump, h]
      · simp [bump, h, ih]

theorem mem_bump (t : String) (m : List (String × Entry)) (p : String × Entry)
    (hp : p ∈ bump t m) :
    ∃ q ∈ m, p.1 = q.1 ∧ p.2.vals = q.2.vals ∧
      (p.2.count = q.2.count ∨ p.2.count = q.2.count + 1) := by
  induction m with
  | nil => cases hp
  | cons q m ih =>
      obtain ⟨k, e⟩ := q
      by_cases h : (k == t) = true
      · simp only [bump, h, if_true, List.mem_cons] at hp
        rcases hp with hp | hp
        · subst hp
          exact ⟨(k, e), List.mem_cons_self _ _, rfl, rfl, Or.inr rfl⟩
        · exact ⟨p, List.mem_cons_of_mem _ hp, rfl, rfl, Or.inl rfl⟩
      · simp only [bump, h, Bool.false_eq_true, if_false, List.mem_cons] at hp
        rcases hp with hp | hp
        · subst hp
          exact ⟨(k, e), List.mem_cons_self _ _, rfl, rfl, Or.inl rfl⟩
        · obtain ⟨q', hq', h1, h2, h3⟩ := ih hp
          exact ⟨q', List.mem_cons_of_mem _ hq', h1, h2, h3⟩

theorem sum_bump (t : String) (m : List (String × Entry))
    (h : (List.lookup t m).isSome = true) :
    ((bump t m).map (fun p => p.2.count)).sum =
      (m.map (fun p => p.2.count)).sum + 1 := by
  induction m with
  | nil => simp [List.lookup] at h
  | cons p m ih =>
      obtain ⟨k, e⟩ := p
      by_cases hk : k = t
      · subst hk
        simp [bump, List.map, List.sum_cons]
        omega
      · have h1 : (k == t) = false := by simp [hk]
        have h2 : (t == k) = false := by simp [Ne.symm hk]
        simp only [List.lookup, h2] at h
        simp only [bump, h1, Bool.false_eq_true, if_false, List.map, List.sum_cons]
        have := ih h
        omega

theorem lookup_append_of_none (t : String) {m l : List (String × Entry)}
    (h : List.lookup t m = none) :
    List.lookup t (m ++ l) = List.lookup t l := by
  induction m with
  | nil => rfl
  | cons p m ih =>
      obtain ⟨k, e⟩ := p
      cases hbeq : (t == k) with
      | true => simp [List.lookup, hbeq] at h
      | false =>
          simp only [List.lookup, hbeq] at h
          simp only [List.cons_append, List.lookup, hbeq]
          exact ih h

theorem lookup_append_of_some (t : String) {m l : List (String × Entry)}
    {e : Entry} (h : List.lookup t m = some e) :
    List.lookup t (m ++ l) = some e := by
  induction m with
  | nil => simp at h
  | cons p m ih =>
      obtain ⟨k, e'⟩ := p
      cases hbeq : (t == k) with
      | true =>
          simp only [List.lookup, hbeq] at h
          simp only [List.cons_append, List.lookup, hbeq]
          exact h
      | false =>
          simp only [List.lookup, hbeq] at h
          simp only [List.cons_append, List.lookup, hbeq]
          exact ih h

theorem lookup_isSome_iff (t : String) (m : List (String × Entry)) :
    (List.lookup t m).isSome = true ↔ t ∈ m.map Prod.fst := by
  induction m with
  | nil => simp
  | cons p m ih =>
      obtain ⟨k, e⟩ := p
      cases hbeq : (t == k) with
      | true =>
          have ht : t = k := by simpa using hbeq
          simp [List.lookup, hbeq, ht]
      | false =>
          have ht : ¬ t = k := by simpa using hbeq
          simp [List.lookup, hbeq, ih, ht]

/-- Characterization of `title_map` lookups over an arbitrary accumulator:
the rows titled `t` either extend an existing entry's count or create the
entry from the first such row. -/
theorem titleMap_lookup_aux (fields : List String) (rows : List Row)
    (t : String) (m : List (String × Entry)) :
    List.lookup t (rows.foldl (dedupStep fields) m) =
      match List.lookup t m, rows.filter (fun r => titleOf r == t) with
      | some e, l => some ⟨e.vals, e.count + l.length⟩
      | none, [] => none
      | none, r :: rs => some ⟨projR fields r, rs.length + 1⟩ := by
  induction rows generalizing m with
  | nil =>
      cases h : List.lookup t m with
      | none => simp [h]
      | some e => simp [h]
  | cons r rs ih =>
      show List.lookup t (rs.foldl (dedupStep fields) (dedupStep fields m r)) = _
      rw [ih]
      by_cases hts : titleOf r = t
      · subst hts
        have hcond : (titleOf r == titleOf r) = true := by simp
        by_cases hm : (List.lookup (titleOf r) m).isSome = true
        · obtain ⟨e, he⟩ := Option.isSome_iff_exists.mp hm
          have hstep : dedupStep fields m r = bump (titleOf r) m := by
            simp [dedupStep, hm]
          rw [hstep, lookup_bump_self, he]
          simp [he]
          omega
        · have hnone : List.lookup (titleOf r) m = none := by
            cases hl : List.lookup (titleOf r) m with
            | none => rfl
            | some e => rw [hl] at hm; simp at hm
          have hstep :
              dedupStep fields m r = m ++ [(titleOf r, ⟨projR fields r, 1⟩)] := by
            simp [dedupStep, hm]
          rw [hstep, lookup_append_of_none _ hnone]
          simp [List.lookup, hnone]
          omega
      · have hcond : (titleOf r == t) = false := by simp [hts]
        have hst : t ≠ titleOf r := Ne.symm hts
        by_cases hm : (List.lookup (titleOf r) m).isSome = true
        · have hstep : dedupStep fields m r = bump (titleOf r) m := by
            simp [dedupStep, hm]
          rw [hstep, lookup_bump_other _ _ hst]
          simp only [List.filter_cons, hcond, Bool.false_eq_true, if_false]
        · have hstep :
              dedupStep fields m r = m ++ [(titleOf r, ⟨projR fields r, 1⟩)] := by
            simp [dedupStep, hm]
          rw [hstep]
          have hbeq : (t == titleOf r) = false := by simp [hst]
          cases hl : List.lookup t m with
          | none =>
              rw [lookup_append_of_none _ hl]
              simp only [List.lookup, hbeq, hl]
              simp only [List.filter_cons, hcond, Bool.false_eq_true, if_false]
          | some e =>
              rw [lookup_append_of_some _ hl]
              simp only [hl, List.filter_cons, hcond, Bool.false_eq_true, if_false]

/-- Characterization of `title_map` from the empty accumulator. -/
theorem titleMap_lookup (fields : List String) (rows : List Row) (t : String) :
    List.lookup t (titleMap fields rows) =
      match rows.filter (fun r => titleOf r == t) with
      | [] => none
      | r :: rs => some ⟨projR fields r, rs.length + 1⟩ := by
  have h := titleMap_lookup_aux fields rows t []
  simp only [titleMap]
  rw [h]
  cases hfil : rows.filter (fun r => titleOf r == t) <;> simp

/-- The keys of `title_map` are the titles in first-occurrence order. -/
theorem titleMap_keys_aux (fields : List String) (rows : List Row)
    (m : List (String × Entry)) :
    (rows.foldl (dedupStep fields) m).map Prod.fst =
      rows.foldl (fun ks r => if titleOf r ∈ ks then ks else ks ++ [titleOf r])
        (m.map Prod.fst) := by
  induction rows generalizing m with
  | nil => rfl
  | cons r rs ih =>
      show (rs.foldl (dedupStep fields) (dedupStep fields m r)).map Prod.fst = _
      rw [ih, List.foldl_cons]
      congr 1
      by_cases hm : (List.lookup (titleOf r) m).isSome = true
      · have hmem : titleOf r ∈ m.map Prod.fst := (lookup_isSome_iff _ _).mp hm
        simp [dedupStep, hm, keys_bump, hmem]
      · have hmem : titleOf r ∉ m.map Prod.fst :=
          fun hc => hm ((lookup_isSome_iff _ _).mpr hc)
        simp [dedupStep, hm, hmem]

/-- The keys of `title_map` are pairwise distinct. -/
theorem titleMap_nodup_aux (fields : List String) (rows : List Row)
    (m : List (String × Entry)) (h : (m.map Prod.fst).Nodup) :
    ((rows.foldl (dedupStep fields) m).map Prod.fst).Nodup := by
  induction rows generalizing m with
  | nil => exact h
  | cons r rs ih =>
      show ((rs.foldl (dedupStep fields) (dedupStep fields m r)).map Prod.fst).Nodup
      apply ih
      by_cases hm : (List.lookup (titleOf r) m).isSome = true
      · simpa [dedupStep, hm, keys_bump] using h
      · have hmem : titleOf r ∉ m.map Prod.fst :=
          fun hc => hm ((lookup_isSome_iff _ _).mpr hc)
        have hstep :
            dedupStep fields m r = m ++ [(titleOf r, ⟨projR fields r, 1⟩)] := by
          simp [dedupStep, hm]
        rw [hstep, List.map_append]
        refine h.append (List.nodup_singleton _) ?_
        intro a ha hb
        simp only [List.map_cons, List.map_nil, List.mem_singleton] at hb
        subst hb
        exact hmem ha

/-- Every entry of `title_map` carries its own key as its `Title` value. -/
theorem titleMap_titleVal_aux (fields : List String) (rows : List Row)
    (m : List (String × Entry)) (hT : "Title" ∈ fields)
    (h : ∀ p ∈ m, rget p.2.vals "Title" = p.1) :
    ∀ p ∈ rows.foldl (dedupStep fields) m, rget p.2.vals "Title" = p.1 := by
  induction rows generalizing m with
  | nil => exact h
  | cons r rs ih =>
      show ∀ p ∈ rs.foldl (dedupStep fields) (dedupStep fields m r), _
      apply ih
      intro p hp
      by_cases hm : (List.lookup (titleOf r) m).isSome = true
      · have hstep : dedupStep fields m r = bump (titleOf r) m := by
          simp [dedupStep, hm]
        rw [hstep] at hp
        obtain ⟨q, hq, h1, h2, _⟩ := mem_bump _ _ _ hp
        rw [h1, h2]
        exact h q hq
      · have hstep :
            dedupStep fields m r = m ++ [(titleOf r, ⟨projR fields r, 1⟩)] := by
          simp [dedupStep, hm]
        rw [hstep] at hp
        rcases List.mem_append.mp hp with hp' | hp'
        · exact h p hp'
        · simp only [List.mem_singleton] at hp'
          subst hp'
          exact rget_projR fields r "Title" hT

/-- Each input row increments exactly one count: total count mass grows by
the number of rows processed. -/
theorem titleMap_sum_aux (fields : List String) (rows : List Row)
    (m : List (String × Entry)) :
    ((rows.foldl (dedupStep fields) m).map (fun p => p.2.count)).sum =
      (m.map (fun p => p.2.count)).sum + rows.length := by
  induction rows generalizing m with
  | nil => simp
  | cons r rs ih =>
      show ((rs.foldl (dedupStep fields) (dedupStep fields m r)).map _).sum = _
      rw [ih]
      by_cases hm : (List.lookup (titleOf r) m).isSome = true
      · have hstep : dedupStep fields m r = bump (titleOf r) m := by
          simp [dedupStep, hm]
        rw [hstep, sum_bump _ _ hm]
        simp only [List.length_cons]
        omega
      · have hstep :
            dedupStep fields m r = m ++ [(titleOf r, ⟨projR fields r, 1⟩)] := by
          simp [dedupStep, hm]
        rw [hstep]
        simp only [List.map_append, List.sum_append, List.map_cons, List.map_nil,
          List.sum_cons, List.sum_nil, List.length_cons]
        omega

/-- Every count in `title_map` is at least one. -/
theorem titleMap_pos_aux (fields : List String) (rows : List Row)
    (m : List (String × Entry)) (h : ∀ p ∈ m, 1 ≤ p.2.count) :
    ∀ p ∈ rows.foldl (dedupStep fields) m, 1 ≤ p.2.count := by
  induction rows generalizing m with
  | nil => exact h
  | cons r rs ih =>
      show ∀ p ∈ rs.foldl (dedupStep fields) (dedupStep fields m r), _
      apply ih
      intro p hp
      by_cases hm : (List.lookup (titleOf r) m).isSome = true
      · have hstep : dedupStep fields m r = bump (titleOf r) m := by
          simp [dedupStep, hm]
        rw [hstep] at hp
        obtain ⟨q, hq, _, _, hc⟩ := mem_bump _ _ _ hp
        have := h q hq
        rcases hc with hc | hc <;> omega
      · have hstep :
            dedupStep fields m r = m ++ [(titleOf r, ⟨projR fields r, 1⟩)] := by
          simp [dedupStep, hm]
        rw [hstep] at hp
        rcases List.mem_append.mp hp with hp' | hp'
        · exact h p hp'
        · simp only [List.mem_singleton] at hp'
          subst hp'
          exact le_refl 1

theorem filter_key_nil (t : String) (m : List (String × Entry))
    (h : t ∉ m.map Prod.fst) : m.filter (fun p => p.1 == t) = [] := by
  induction m with
  | nil => rfl
  | cons p m ih =>
      obtain ⟨k, e⟩ := p
      simp only [List.map_cons, List.mem_cons] at h
      push_neg at h
      obtain ⟨h1, h2⟩ := h
      have hbeq : (k == t) = false := by simp [Ne.symm h1]
      simp [List.filter_cons, hbeq, ih h2]

theorem filter_key_one (t : String) (m : List (String × Entry))
    (hnd : (m.map Prod.fst).Nodup) (hmem : t ∈ m.map Prod.fst) :
    (m.filter (fun p => p.1 == t)).length = 1 := by
  induction m with
  | nil => simp at hmem
  | cons p m ih =>
      obtain ⟨k, e⟩ := p
      simp only [List.map_cons, List.nodup_cons] at hnd
      obtain ⟨hk, hnd'⟩ := hnd
      by_cases h : k = t
      · subst h
        have hnil : m.filter (fun p => p.1 == k) = [] := filter_key_nil k m hk
        simp [List.filter_cons, hnil]
      · have hbeq : (k == t) = false := by simp [h]
        have hmem' : t ∈ m.map Prod.fst := by
          simp only [List.map_cons, List.mem_cons] at hmem
          rcases hmem with hmem | hmem
          · exact absurd hmem.symm h
          · exact hmem
        simp only [List.filter_cons, hbeq, Bool.false_eq_true, if_false]
        exact ih hnd' hmem'

theorem filter_map_comm (f : α → β) (p : β → Bool) (l : List α) :
    (l.map f).filter p = (l.filter (fun a => p (f a))).map f := by
  induction l with
  | nil => rfl
  | cons a l ih =>
      by_cases h : p (f a) = true
      · simp [List.filter_cons, h, ih]
      · simp [List.filter_cons, h, ih]

theorem flatMap_congr_mem {l : List α} {f g : α → List β}
    (h : ∀ a ∈ l, f a = g a) : l.flatMap f = l.flatMap g := by
  induction l with
  | nil => rfl
  | cons a l ih =>
      simp only [List.flatMap_cons]
      rw [h a (List.mem_cons_self _ _),
        ih (fun x hx => h x (List.mem_cons_of_mem _ hx))]

/-- `discover` on a truthy (nonempty) allow-set, unfolded. -/
theorem discover_cons (fs : List SrcFile) (pattern : String) (d0 : String)
    (ds' : List String) :
    discover fs pattern (some (d0 :: ds')) =
      sortBy pathLe ((d0 :: ds').flatMap (fun d => globUnder fs d pattern)) :=
  rfl

/-! ### Claim theorems -/

/-- C5: a required output column absent from a source record is written as the
empty string in the merged record, and a source column outside the fixed
output column list never appears in the merged record. -/
theorem C5_projection (r : Row) :
    (∀ c ∈ HEADER_LIST, List.lookup c r = none →
        rget (readRow HEADER_LIST (projectRow r)) c = "") ∧
    (∀ c, c ∉ HEADER_LIST →
        List.lookup c (readRow HEADER_LIST (projectRow r)) = none) := by
  constructor
  · intro c hc habsent
    have hl := lookup_zip_map (fun c => rget r c) c HEADER_LIST hc
    show (List.lookup c (HEADER_LIST.zip (HEADER_LIST.map (fun c => rget r c)))).getD "" = ""
    rw [hl]
    simp [rget, habsent]
  · intro c hc
    exact lookup_zip_none c HEADER_LIST (projectRow r) hc

/-- Witness for C5 at a concrete record `{"Junk": "x"}`: the absent `Title`
column becomes `""` and the extra `Junk` column does not appear. -/
theorem C5_projection_witness :
    rget (readRow HEADER_LIST (projectRow [("Junk", "x")])) "Title" = "" ∧
    List.lookup "Junk" (readRow HEADER_LIST (projectRow [("Junk", "x")])) = none :=
  ⟨(C5_projection [("Junk", "x")]).1 "Title" (by decide) (by decide),
   (C5_projection [("Junk", "x")]).2 "Junk" (by decide)⟩

/-- C1: in a merged dataset whose rows titled `t` are `r₀ :: rest` — so
N = rest.length + 1 of them, with `r₀` first-encountered — the deduplicated
map holds exactly one entry whose Title value is `t`; its count is N, and its
field values are the projection of the first-encountered row `r₀` (later
duplicates never overwrite them). -/
theorem C1_dedup_first_wins (fields : List String) (rows : List Row)
    (t : String) (r₀ : Row) (rest : List Row) (hT : "Title" ∈ fields)
    (hwf : ∀ r ∈ rows, (List.lookup "Title" r).isSome = true)
    (hocc : rows.filter (fun r => titleOf r == t) = r₀ :: rest) :
    (((titleMap fields rows).map Prod.snd).filter
        (fun e => rget e.vals "Title" == t)).length = 1 ∧
    List.lookup t (titleMap fields rows) =
      some ⟨projR fields r₀, rest.length + 1⟩ := by
  have hlook := titleMap_lookup fields rows t
  rw [hocc] at hlook
  refine ⟨?_, hlook⟩
  have hval := titleMap_titleVal_aux fields rows [] hT (by intro p hp; cases hp)
  have hnd := titleMap_nodup_aux fields rows [] (by simp)
  have hmem : t ∈ (titleMap fields rows).map Prod.fst := by
    apply (lookup_isSome_iff _ _).mp
    rw [hlook]
    rfl
  rw [filter_map_comm, List.length_map]
  have hcong : (titleMap fields rows).filter
      (fun p => rget p.2.vals "Title" == t) =
      (titleMap fields rows).filter (fun p => p.1 == t) := by
    apply List.filter_congr
    intro p hp
    rw [hval p hp]
  rw [hcong]
  exact filter_key_one t _ hnd hmem

/-- Witness for C1: of three rows, two share Title `A` with differing
Difficulty; the output has exactly one `A` entry, count 2, with the FIRST
row's Difficulty (`Easy`). -/
theorem C1_dedup_first_wins_witness :
    (((titleMap HEADER_LIST
        [[("Title", "A"), ("Difficulty", "Easy")],
         [("Title", "A"), ("Difficulty", "Hard")],
         [("Title", "B")]]).map Prod.snd).filter
        (fun e => rget e.vals "Title" == "A")).length = 1 ∧
    List.lookup "A" (titleMap HEADER_LIST
        [[("Title", "A"), ("Difficulty", "Easy")],
         [("Title", "A"), ("Difficulty", "Hard")],
         [("Title", "B")]]) =
      some ⟨projR HEADER_LIST [("Title", "A"), ("Difficulty", "Easy")], 2⟩ :=
  C1_dedup_first_wins HEADER_LIST
    [[("Title", "A"), ("Difficulty", "Easy")],
     [("Title", "A"), ("Difficulty", "Hard")],
     [("Title", "B")]] "A"
    [("Title", "A"), ("Difficulty", "Easy")]
    [[("Title", "A"), ("Difficulty", "Hard")]]
    (by decide) (by decide) (by decide)

/-- C8: the counts of the deduplicated output sum to the number of input data
rows, and every count is at least 1. -/
theorem C8_count_conservation (fields : List String) (rows : List Row)
    (hT : "Title" ∈ fields)
    (hwf : ∀ r ∈ rows, (List.lookup "Title" r).isSome = true) :
    ((titleMap fields rows).map (fun p => p.2.count)).sum = rows.length ∧
    ∀ p ∈ titleMap fields rows, 1 ≤ p.2.count := by
  constructor
  · have h := titleMap_sum_aux fields rows []
    simpa [titleMap] using h
  · exact titleMap_pos_aux fields rows [] (by intro p hp; cases hp)

/-- Witness for C8: three rows over two titles; counts sum to 3, all
positive. -/
theorem C8_count_conservation_witness :
    ((titleMap HEADER_LIST
        [[("Title", "A")], [("Title", "B")], [("Title", "A")]]).map
        (fun p => p.2.count)).sum = 3 ∧
    ∀ p ∈ titleMap HEADER_LIST
        [[("Title", "A")], [("Title", "B")], [("Title", "A")]],
      1 ≤ p.2.count :=
  C8_count_conservation HEADER_LIST
    [[("Title", "A")], [("Title", "B")], [("Title", "A")]]
    (by decide) (by decide)

/-- C10: the deduplicated output (before the final sort) lists one entry per
distinct Title, in the order of each Title's first occurrence in the merged
input. -/
theorem C10_first_seen_order (fields : List String) (rows : List Row)
    (hT : "Title" ∈ fields)
    (hwf : ∀ r ∈ rows, (List.lookup "Title" r).isSome = true) :
    ((titleMap fields rows).map Prod.snd).map (fun e => rget e.vals "Title") =
      firstSeen (rows.map titleOf) := by
  have hval := titleMap_titleVal_aux fields rows [] hT (by intro p hp; cases hp)
  rw [List.map_map]
  have hmap : (titleMap fields rows).map
      ((fun e => rget e.vals "Title") ∘ Prod.snd) =
      (titleMap fields rows).map Prod.fst := by
    apply List.map_congr_left
    intro p hp
    exact hval p hp
  rw [hmap]
  have hkeys := titleMap_keys_aux fields rows []
  simp only [List.map_nil] at hkeys
  unfold titleMap firstSeen
  rw [hkeys, List.foldl_map]

/-- Witness for C10: titles arrive as A, B, A; the dedup output lists A then
B (first-seen order). -/
theorem C10_first_seen_order_witness :
    ((titleMap HEADER_LIST
        [[("Title", "A")], [("Title", "B")], [("Title", "A")]]).map
        Prod.snd).map (fun e => rget e.vals "Title") = ["A", "B"] :=
  (C10_first_seen_order HEADER_LIST
    [[("Title", "A")], [("Title", "B")], [("Title", "A")]]
    (by decide) (by decide)).trans (by decide)

/-- C7: when no files match the pattern, the pattern pass neither errors nor
exits; the compiled output is exactly one header row — `HEADER_LIST` plus the
appended count column — and zero data records. -/
theorem C7_empty_match (fs : List SrcFile) (pattern : String)
    (allowed : Option (List String)) (h : discover fs pattern allowed = []) :
    (process_pattern fs pattern allowed).exitCode = none ∧
    (process_pattern fs pattern allowed).err = [] ∧
    (process_pattern fs pattern allowed).output =
      some (HEADER_LIST ++ ["count"], []) := by
  have hrec : mergedRecords fs pattern allowed = [] := by
    simp [mergedRecords, h]
  have hT : "Title" ∈ HEADER_LIST := by decide
  refine ⟨?_, ?_, ?_⟩ <;>
    simp [process_pattern, hrec, merge_duplicates, hT, titleMap,
      sort_by_count, sortBy]

/-- Witness for C7 on an empty tree. -/
theorem C7_empty_match_witness :
    (process_pattern [] "5. All.csv" none).exitCode = none ∧
    (process_pattern [] "5. All.csv" none).err = [] ∧
    (process_pattern [] "5. All.csv" none).output =
      some (HEADER_LIST ++ ["count"], []) :=
  C7_empty_match [] "5. All.csv" none (by decide)

/-- C3 (code bug): the pipeline is NOT idempotent.  The compiled per-pattern
file keeps the pattern's own filename (`splitext` strips `.csv` and the code
re-appends it — the docstring instead documents `<pattern>_final.csv`) and is
copied into an output folder under the working directory, where the next
run's recursive glob re-ingests it: with one company row titled `Two Sum`,
the first run compiles count 1, but a second run over unchanged inputs sees
the first run's output as an extra source and compiles count 2, so the
outputs differ. -/
theorem C3_second_run_differs :
    outName "1. Thirty Days.csv" = "1. Thirty Days.csv" ∧
    (process_pattern exampleTree "1. Thirty Days.csv" none).output =
      some (HEADER_LIST ++ ["count"], [["", "Two Sum", "", "", "", "", "1"]]) ∧
    (process_pattern (afterRun exampleTree "1. Thirty Days.csv" none)
        "1. Thirty Days.csv" none).output =
      some (HEADER_LIST ++ ["count"], [["", "Two Sum", "", "", "", "", "2"]]) ∧
    (process_pattern (afterRun exampleTree "1. Thirty Days.csv" none)
        "1. Thirty Days.csv" none).output ≠
      (process_pattern exampleTree "1. Thirty Days.csv" none).output := by
  decide

/-- C6 counterexample: `-c ","` parses to a provided-but-EMPTY allow-set; the
falsy guard `if allowed_dirs:` then scans the whole tree, so the row sourced
under folder `Beta` — a folder whose name is not in the (empty) allow-set —
appears in the output. -/
theorem C6_counterexample :
    parse_companies_arg "," = some [] ∧
    "Beta" ∉ ([] : List String) ∧
    (process_pattern betaTree "5. All.csv" (some [])).output =
      some (HEADER_LIST ++ ["count"], [["", "X", "", "", "", "", "1"]]) := by
  decide

/-- C6 amended: when a NONEMPTY allow-set is provided, a file whose top-level
folder name is not in the allow-set is never discovered, and deleting every
such file from the tree leaves the merged output unchanged — rows of such
files never appear in any output. -/
theorem C6_filter_scoping (fs : List SrcFile) (pattern : String)
    (ds : List String) (hne : ds ≠ [])
    (f : SrcFile) (hf : ∀ d ∈ ds, f.dirs.head? ≠ some d) :
    f ∉ discover fs pattern (some ds) ∧
    mergedRecords fs pattern (some ds) =
      mergedRecords
        (fs.filter (fun g => ds.any (fun d => g.dirs.head? == some d)))
        pattern (some ds) := by
  cases ds with
  | nil => exact absurd rfl hne
  | cons d0 ds' =>
      constructor
      · intro hmem
        rw [discover_cons, mem_sortBy] at hmem
        obtain ⟨d', hd', hfm⟩ := List.mem_flatMap.mp hmem
        unfold globUnder at hfm
        obtain ⟨_, hcond⟩ := List.mem_filter.mp hfm
        have hhead : (f.dirs.head? == some d') = true :=
          ((Bool.and_eq_true _ _).mp hcond).1
        exact hf d' hd' (by simpa using hhead)
      · have hglob : ∀ d' ∈ d0 :: ds',
            globUnder
              (fs.filter (fun g => (d0 :: ds').any
                (fun d => g.dirs.head? == some d))) d' pattern =
            globUnder fs d' pattern := by
          intro d' hd'
          unfold globUnder
          rw [List.filter_filter]
          apply List.filter_congr
          intro g hg
          cases hh : (g.dirs.head? == some d') with
          | false => simp [hh]
          | true =>
              have hany : ((d0 :: ds').any
                  (fun d => g.dirs.head? == some d)) = true :=
                List.any_eq_true.mpr ⟨d', hd', hh⟩
              simp [hh, hany]
        unfold mergedRecords
        rw [discover_cons, discover_cons, flatMap_congr_mem hglob]

/-- Witness for the amended C6: with allow-set `{"Alpha"}`, the file under
`Beta` is not discovered, and deleting it changes nothing. -/
theorem C6_filter_scoping_witness :
    ({ dirs := ["Beta"], name := "5. All.csv", rows := [[("Title", "X")]],
        err := false } : SrcFile) ∉
      discover betaTree "5. All.csv" (some ["Alpha"]) ∧
    mergedRecords betaTree "5. All.csv" (some ["Alpha"]) =
      mergedRecords
        (betaTree.filter
          (fun g => ["Alpha"].any (fun d => g.dirs.head? == some d)))
        "5. All.csv" (some ["Alpha"]) :=
  C6_filter_scoping betaTree "5. All.csv" ["Alpha"] (by decide)
    { dirs := ["Beta"], name := "5. All.csv", rows := [[("Title", "X")]],
      err := false } (by decide)

/-- C4 counterexample: with the Title column missing, the stage does abort
with exit code 1 and a diagnostic naming the offending intermediate file —
but the diagnostic is printed to standard output, and the error stream stays
empty, refuting the claim's "to the error stream". -/
theorem C4_counterexample :
    (merge_duplicates "temp_output.csv" "final_output.csv"
        (some ["Difficulty"]) []).exitCode = some 1 ∧
    (merge_duplicates "temp_output.csv" "final_output.csv"
        (some ["Difficulty"]) []).out =
      ["  [ERROR] Title column missing in temp_output.csv"] ∧
    (merge_duplicates "temp_output.csv" "final_output.csv"
        (some ["Difficulty"]) []).err = [] := by
  decide

/-- C4 amended: a merged header without `Title` makes the run abort
immediately with exit code 1, a diagnostic naming the offending file printed
to STANDARD OUTPUT (not the error stream), and no output file written or
overwritten for that pattern; individual per-file read errors are only logged
(also to standard output) and never abort the pass or change its exit code,
which stays `none` whatever files fail. -/
theorem C4_title_missing_fatal :
    (∀ (inputCsv outputCsv : String) (header : List String) (rows : List Row),
        "Title" ∉ header →
        (merge_duplicates inputCsv outputCsv (some header) rows).exitCode =
          some 1 ∧
        (merge_duplicates inputCsv outputCsv (some header) rows).out =
          ["  [ERROR] Title column missing in " ++ inputCsv] ∧
        (merge_duplicates inputCsv outputCsv (some header) rows).output =
          none) ∧
    (∀ (fs : List SrcFile) (pattern : String) (allowed : Option (List String)),
        (process_pattern fs pattern allowed).exitCode = none ∧
        (process_pattern fs pattern allowed).err = [] ∧
        ∀ f ∈ discover fs pattern allowed, f.err = true →
          ("  [ERROR] reading " ++ pathStr f) ∈
            (process_pattern fs pattern allowed).out) := by
  have hT : "Title" ∈ HEADER_LIST := by decide
  constructor
  · intro inputCsv outputCsv header rows hmiss
    refine ⟨?_, ?_, ?_⟩ <;> simp [merge_duplicates, hmiss]
  · intro fs pattern allowed
    refine ⟨?_, ?_, ?_⟩
    · simp [process_pattern, merge_duplicates, hT]
    · simp [process_pattern, merge_duplicates, hT]
    · intro f hfd herr
      have hout : (process_pattern fs pattern allowed).out =
          mergeLogs fs pattern allowed ++
            (merge_duplicates "temp_output.csv" "final_output.csv"
              (some HEADER_LIST)
              ((mergedRecords fs pattern allowed).map
                (readRow HEADER_LIST))).out := rfl
      rw [hout]
      apply List.mem_append.mpr
      left
      unfold mergeLogs
      exact List.mem_map.mpr ⟨f, hfd, by simp [herr]⟩

/-- Witness for the amended C4: a Title-less header exits with code 1; a pass
over a tree whose only file errors out still finishes with no exit. -/
theorem C4_title_missing_fatal_witness :
    (merge_duplicates "t.csv" "f.csv" (some ["Difficulty"]) []).exitCode =
      some 1 ∧
    (process_pattern
      [{ dirs := ["CompanyA"], name := "5. All.csv", rows := [],
         err := true }] "5. All.csv" none).exitCode = none :=
  ⟨(C4_title_missing_fatal.1 "t.csv" "f.csv" ["Difficulty"] [] (by decide)).1,
   (C4_title_missing_fatal.2
     [{ dirs := ["CompanyA"], name := "5. All.csv", rows := [],
        err := true }] "5. All.csv" none).1⟩

/-- C9: on a completely empty input file (`reader.fieldnames` is `None`, no
records) the dedup stage does not abort: the fields fall back to
`HEADER_LIST` (which contains `Title`), and the output written is the header
`HEADER_LIST ++ ["count"]` with zero data records. -/
theorem C9_empty_input :
    (merge_duplicates "temp_output.csv" "final_output.csv" none []).exitCode = none ∧
    (merge_duplicates "temp_output.csv" "final_output.csv" none []).output =
      some (HEADER_LIST ++ ["count"], []) := by
  constructor <;> rfl

end ProcessAll
